import Mathlib

/-!
# Barra-De-Carga: the three tasks of `C++.cpp`

A shallow embedding of `countdown`, `printProgressBar` and `increment`.

* `int` is 32 bits wide, with largest value `INT_MAX` = 2147483647, and `uint`
  is `unsigned int`, also 32 bits wide.  Signed
  arithmetic that leaves the range of `int` is taken with two's-complement
  wrap-around (`wrapInt`), as the usual targets compute it; the C++ standard
  leaves that case undefined.
* `/` on `int` truncates towards zero (`Int.tdiv`).
* A task is embedded by what it does to the shared variables and to the console:
  `countdown` yields its actions in program order, `printProgressBar` and
  `increment` are step functions fed with the values their atomic loads return.
* `std::flush` carries no text and is left out; `std::endl` is the newline.
-/

namespace BarraDeCarga

/-! ## Machine integers -/

/-- Value of an `int` expression whose mathematical value is `x`: reduced to
`[-2^31, 2^31)` modulo `2^32`. -/
def wrapInt (x : Int) : Int := (x + 2147483648) % 4294967296 - 2147483648

/-- Product `a * b` on `int`. -/
def intMul (a b : Int) : Int := wrapInt (a * b)

/-- Quotient `a / b` on `int`, truncated towards zero. -/
def intDiv (a b : Int) : Int := wrapInt (Int.tdiv a b)

/-- Sum `a + b` on `int`. -/
def intAdd (a b : Int) : Int := wrapInt (a + b)

/-- Difference `a - b` on `int`. -/
def intSub (a b : Int) : Int := wrapInt (a - b)

/-- Conversion of an `int` to `uint` (the argument of `percentage.store`). -/
def toUInt (x : Int) : Nat := (x % 4294967296).toNat

/-- Conversion of a `uint` to `int` (`int auxPercentage = percentage.load()`). -/
def ofUInt (n : Nat) : Int := wrapInt (n : Int)

/-! ## Shared variables (source lines 61-63) -/

/-- The three atomics: `stopFlag(true)`, `number(0)`, `percentage(0)`. -/
structure Shared where
  stopFlag : Bool
  number : Nat
  percentage : Nat
  deriving DecidableEq

/-- Values at process start. -/
def Shared.init : Shared := { stopFlag := true, number := 0, percentage := 0 }

/-! ## `countdown` (source lines 121-132) -/

/-- What `countdown` does, one constructor per statement with an effect. -/
inductive Action
  | storePercentage (v : Nat)
  | sleepFor (ms : Nat)
  | storeStopFlag (b : Bool)
  deriving DecidableEq

/-- Effect of one action on the shared variables. -/
def Action.apply : Action → Shared → Shared
  | .storePercentage v, s => { s with percentage := v }
  | .sleepFor _, s => s
  | .storeStopFlag b, s => { s with stopFlag := b }

/-- Line 126-127: `calPercentage = (i * 100) / finish`, then the value that
`percentage.store(calPercentage)` leaves in the `uint`. -/
def calPercentage (finish i : Int) : Nat :=
  toUInt (intDiv (intMul i 100) finish)

/-- Body of the `for` loop for one value of `i`: the store and the 500 ms sleep. -/
def loopBody (finish i : Int) : List Action :=
  [Action.storePercentage (calPercentage finish i), Action.sleepFor 500]

/-- The loop `for (int i = ...; i <= finish; i++)` entered with loop variable
`i`, `acc` being the actions done so far.  The first argument bounds the number
of passes; `none` means the bound was reached with the condition still true. -/
def countdownLoop (finish : Int) : Nat → Int → List Action → Option (List Action)
  | 0, i, acc => if i ≤ finish then none else some acc
  | fuel + 1, i, acc =>
    if i ≤ finish then
      countdownLoop finish fuel (intAdd i 1) (acc ++ loopBody finish i)
    else some acc

/-- Actions of `countdown(finish)` in program order. -/
def countdown (finish : Int) : Option (List Action) :=
  let finish := intMul finish 2
  (countdownLoop finish finish.toNat 1 []).map (fun acc => acc ++ [Action.storeStopFlag false])

/-- Actions of `n` consecutive passes of the loop body starting at `i`: what the
loop is shown to do, used to state the results. -/
def bodiesFrom (finish : Int) (i : Int) : Nat → List Action
  | 0 => []
  | n + 1 => loopBody finish i ++ bodiesFrom finish (i + 1) n

/-- Values written to `percentage`, in order. -/
def percentageStores : List Action → List Nat
  | [] => []
  | .storePercentage v :: as => v :: percentageStores as
  | _ :: as => percentageStores as

/-- Values written to `stopFlag`, in order. -/
def stopFlagStores : List Action → List Bool
  | [] => []
  | .storeStopFlag b :: as => b :: stopFlagStores as
  | _ :: as => stopFlagStores as

/-- Shared variables after all of `as`. -/
def runActions (s : Shared) (as : List Action) : Shared :=
  as.foldl (fun s a => a.apply s) s

/-- Every state the shared variables go through while `as` runs from `s`:
`s` itself, then the state after each action. -/
def statesFrom (s : Shared) : List Action → List Shared
  | [] => [s]
  | a :: as => s :: statesFrom (a.apply s) as

/-! ## `printProgressBar` (source lines 134-163) -/

/-- One operand of `std::cout <<`: a terminal control sequence (an escape
sequence or the carriage return, nothing visible) or visible text. -/
inductive Piece
  | control (s : String)
  | text (s : String)
  deriving DecidableEq

/-- Sequence `\033[?25l`: hide the cursor. -/
def cursorHide : String := "\x1b[?25l"

/-- Sequence `\033[?25h`: show the cursor. -/
def cursorShow : String := "\x1b[?25h"

/-- Sequence `\033[32m`: green. -/
def green : String := "\x1b[32m"

/-- Sequence `\033[0m`: colour reset. -/
def colourReset : String := "\x1b[0m"

/-- Visible text of a list of operands: the control sequences left out. -/
def Piece.content : List Piece → String
  | [] => ""
  | .control _ :: ps => Piece.content ps
  | .text s :: ps => s ++ Piece.content ps

/-- Constructor `std::string(count, ch)` called with an `int` count: the count
is converted to `size_t`, so a negative one exceeds `max_size()` and the
constructor throws `std::length_error` (`none`). -/
def stdString (count : Int) (ch : Char) : Option String :=
  if count < 0 then none else some (String.mk (List.replicate count.toNat ch))

/-- Line 144: `avance = (size * auxPercentage) / 100`. -/
def avance (size auxPercentage : Int) : Int := intDiv (intMul size auxPercentage) 100

/-- Lines 137-141: cursor hide, carriage return and the opening bracket. -/
def frameHead : List Piece := [.control cursorHide, .control "\r", .text "["]

/-- Lines 143-154, given the value `pct` returned by `percentage.load()`: the
operands of the third output statement, `none` when a `std::string` throws. -/
def frameBar (size : Int) (fillChar spaceChar : Char) (pct : Nat) : Option (List Piece) := do
  let auxPercentage := ofUInt pct
  let avance := avance size auxPercentage
  let filled ← stdString avance fillChar
  let rest ← stdString (intSub size avance) spaceChar
  pure [.control green, .text filled, .control colourReset, .text rest, .text "] ",
    .control (if auxPercentage = 100 then green else ""), .text (toString auxPercentage),
    .text "%"]

/-- Output of one pass of the `while` body. -/
def renderFrame (size : Int) (fillChar spaceChar : Char) (pct : Nat) : Option (List Piece) :=
  (frameBar size fillChar spaceChar pct).map (fun bar => frameHead ++ bar)

/-- Lines 160-162: colour reset, cursor show, `std::endl`. -/
def epilogue : List Piece := [.control colourReset, .control cursorShow, .text "\n"]

/-- Where the renderer thread stands: about to load `stopFlag` (`check`), inside
the loop body after a load that returned true (`body`), in the 100 ms sleep
(`sleeping`), returned (`done`), or ended by an uncaught exception (`aborted`). -/
inductive PC
  | check
  | body
  | sleeping
  | done
  | aborted
  deriving DecidableEq

/-- Renderer thread: its position and the console output so far, one entry per
pass of the loop body and one for the epilogue. -/
structure Renderer where
  pc : PC
  out : List (List Piece)
  deriving DecidableEq

/-- Renderer at thread start. -/
def Renderer.init : Renderer := { pc := .check, out := [] }

/-- Operands of the third output statement (lines 147-154) already written when
one of its `std::string` throws, given the value `pct` returned by
`percentage.load()`: the operands of `<<` are evaluated and written from left to
right, so green is out before the first string is built, and the fill segment
and the colour reset are out before the second one is. -/
def thrownBar (size : Int) (fillChar : Char) (pct : Nat) : List Piece :=
  let auxPercentage := ofUInt pct
  let avance := avance size auxPercentage
  match stdString avance fillChar with
  | none => [.control green]
  | some filled => [.control green, .text filled, .control colourReset]

/-- One step of `printProgressBar`, `mem` being the shared variables at that
moment: `check` loads `stopFlag`, `body` loads `percentage` and prints.  When a
`std::string` throws, the pass has printed the head and the operands written
before the throw, and the uncaught exception ends the thread. -/
def printProgressBarStep (size : Int) (fillChar spaceChar : Char) (mem : Shared)
    (r : Renderer) : Renderer :=
  match r.pc with
  | .check =>
    if mem.stopFlag then { r with pc := .body }
    else { pc := .done, out := r.out ++ [epilogue] }
  | .body =>
    match frameBar size fillChar spaceChar mem.percentage with
    | some bar => { pc := .sleeping, out := r.out ++ [frameHead ++ bar] }
    | none =>
      { pc := .aborted,
        out := r.out ++ [frameHead ++ thrownBar size fillChar mem.percentage] }
  | .sleeping => { r with pc := .check }
  | .done => r
  | .aborted => r

/-- Renderer after one step for each entry of `mems`. -/
def printProgressBarRun (size : Int) (fillChar spaceChar : Char) (mems : List Shared)
    (r : Renderer) : Renderer :=
  mems.foldl (fun r mem => printProgressBarStep size fillChar spaceChar mem r) r

/-! ## `increment` (source lines 165-169) -/

/-- Counter thread: whether `increment` has returned, and the atomic `number`. -/
structure CounterTask where
  returned : Bool
  number : Nat
  deriving DecidableEq

/-- Counter thread at start: `number(0)`. -/
def CounterTask.init : CounterTask := { returned := false, number := 0 }

/-- One evaluation of the loop condition, `flag` being what `stopFlag.load()`
returns: on true `number.fetch_add(1)` on the 64-bit counter, on false return. -/
def incrementStep (flag : Bool) (c : CounterTask) : CounterTask :=
  if c.returned then c
  else if flag then { c with number := (c.number + 1) % 18446744073709551616 }
  else { c with returned := true }

/-- Counter thread after the loads of `stopFlag` returned `reads`, in order. -/
def increment (reads : List Bool) : CounterTask :=
  reads.foldl (fun c flag => incrementStep flag c) CounterTask.init

/-! ## Facts about the machine integers -/

theorem wrapInt_of_range {x : Int} (h1 : -2147483648 ≤ x) (h2 : x ≤ 2147483647) :
    wrapInt x = x := by
  unfold wrapInt; omega

theorem wrapInt_bounds (x : Int) : -2147483648 ≤ wrapInt x ∧ wrapInt x ≤ 2147483647 := by
  unfold wrapInt; omega

theorem wrapInt_double_le (x : Int) : wrapInt (x * 2) ≤ 2147483646 := by
  unfold wrapInt; omega

theorem toUInt_natCast {n : Nat} (h : n < 4294967296) : toUInt (n : Int) = n := by
  unfold toUInt; omega

/-- Without overflow the stored value is the floor of the quotient. -/
theorem calPercentage_natCast (f i : Nat) (h : i * 100 ≤ 2147483647) :
    calPercentage (f : Int) (i : Int) = i * 100 / f := by
  have hq : i * 100 / f ≤ i * 100 := Nat.div_le_self _ _
  have e1 : wrapInt ((i : Int) * 100) = ((i * 100 : Nat) : Int) := by
    rw [wrapInt_of_range] <;> push_cast <;> omega
  have e2 : Int.tdiv ((i * 100 : Nat) : Int) (f : Int) = ((i * 100 / f : Nat) : Int) :=
    (Int.ofNat_tdiv _ _).symm
  have e3 : wrapInt ((i * 100 / f : Nat) : Int) = ((i * 100 / f : Nat) : Int) := by
    generalize i * 100 / f = q at hq
    apply wrapInt_of_range <;> omega
  have e4 : toUInt ((i * 100 / f : Nat) : Int) = i * 100 / f := by
    generalize i * 100 / f = q at hq
    apply toUInt_natCast; omega
  unfold calPercentage intDiv intMul
  rw [e1, e2, e3, e4]

/-! ## The loop of `countdown` unrolled -/

theorem countdownLoop_eq (finish : Int) (hf : finish ≤ 2147483646) :
    ∀ (n : Nat) (i : Int) (acc : List Action), -2147483648 ≤ i → i + n = finish + 1 →
      countdownLoop finish n i acc = some (acc ++ bodiesFrom finish i n) := by
  intro n
  induction n with
  | zero =>
    intro i acc _ h
    have : ¬ i ≤ finish := by omega
    simp [countdownLoop, bodiesFrom, this]
  | succ n ih =>
    intro i acc hi h
    have hle : i ≤ finish := by omega
    have hw : wrapInt (i + 1) = i + 1 := wrapInt_of_range (by omega) (by omega)
    simp only [countdownLoop, intAdd, hle, if_true, hw]
    rw [ih (i + 1) _ (by omega) (by push_cast at h; omega)]
    simp [bodiesFrom, List.append_assoc]

/-- The loop always ends by its condition: `countdown` returns, with the passes
`1 .. finish*2` followed by the store to `stopFlag`. -/
theorem countdown_eq (D : Int) :
    countdown D = some (bodiesFrom (wrapInt (D * 2)) 1 (wrapInt (D * 2)).toNat
      ++ [Action.storeStopFlag false]) := by
  have hf := wrapInt_double_le D
  simp only [countdown, intMul]
  by_cases h : 0 ≤ wrapInt (D * 2)
  · rw [countdownLoop_eq _ hf _ 1 [] (by omega) (by omega)]
    simp
  · have h0 : (wrapInt (D * 2)).toNat = 0 := by omega
    have : ¬ (1 : Int) ≤ wrapInt (D * 2) := by omega
    simp [h0, countdownLoop, bodiesFrom, this]

theorem percentageStores_append (a b : List Action) :
    percentageStores (a ++ b) = percentageStores a ++ percentageStores b := by
  induction a with
  | nil => rfl
  | cons x xs ih => cases x <;> simp [percentageStores, ih]

theorem stopFlagStores_append (a b : List Action) :
    stopFlagStores (a ++ b) = stopFlagStores a ++ stopFlagStores b := by
  induction a with
  | nil => rfl
  | cons x xs ih => cases x <;> simp [stopFlagStores, ih]

theorem percentageStores_bodiesFrom (finish : Int) :
    ∀ (n : Nat) (i : Int), percentageStores (bodiesFrom finish i n)
      = (List.range n).map (fun (k : Nat) => calPercentage finish (i + (k : Int))) := by
  intro n
  induction n with
  | zero => intro i; rfl
  | succ n ih =>
    intro i
    have hb : percentageStores (bodiesFrom finish i (n + 1))
        = calPercentage finish i :: percentageStores (bodiesFrom finish (i + 1) n) := by
      simp [bodiesFrom, loopBody, percentageStores]
    rw [hb, ih, List.range_succ_eq_map, List.map_cons, List.map_map]
    congr 1
    · simp
    · apply List.map_congr_left
      intro k _
      simp only [Function.comp, Nat.succ_eq_add_one]
      congr 1
      push_cast
      omega

theorem stopFlagStores_bodiesFrom (finish : Int) :
    ∀ (n : Nat) (i : Int), stopFlagStores (bodiesFrom finish i n) = [] := by
  intro n
  induction n with
  | zero => intro i; rfl
  | succ n ih => intro i; simp [bodiesFrom, loopBody, stopFlagStores, ih]

/-- Values `countdown` writes to `percentage`: pass `k+1` writes
`calPercentage finish (k+1)`. -/
theorem percentageStores_countdown (D : Int) :
    (countdown D).map percentageStores
      = some ((List.range (wrapInt (D * 2)).toNat).map
          (fun (k : Nat) => calPercentage (wrapInt (D * 2)) (1 + (k : Int)))) := by
  rw [countdown_eq]
  simp [percentageStores_append, percentageStores_bodiesFrom, percentageStores]

/-! ## `countdown` on the durations without overflow -/

theorem wrapInt_double_natCast {D : Nat} (h : 2 * D ≤ 2147483647) :
    wrapInt ((D : Int) * 2) = ((2 * D : Nat) : Int) := by
  rw [wrapInt_of_range] <;> push_cast <;> omega

/-- The stored values when neither `finish * 2` nor any `i * 100` overflows. -/
theorem percentageStores_countdown_natCast {D : Nat} (h : 200 * D ≤ 2147483647) :
    (countdown (D : Int)).map percentageStores
      = some ((List.range (2 * D)).map (fun k => (k + 1) * 100 / (2 * D))) := by
  have hw : wrapInt ((D : Int) * 2) = ((2 * D : Nat) : Int) :=
    @wrapInt_double_natCast D (by omega)
  rw [percentageStores_countdown, hw, Int.toNat_ofNat]
  refine congrArg some (List.map_congr_left ?_)
  intro k hk
  rw [List.mem_range] at hk
  have e : (1 : Int) + (k : Int) = ((k + 1 : Nat) : Int) := by push_cast; omega
  rw [e, calPercentage_natCast _ _ (by omega)]

theorem runActions_percentage :
    ∀ (as : List Action) (s : Shared),
      (runActions s as).percentage = ((percentageStores as).getLast?).getD s.percentage := by
  intro as
  induction as with
  | nil => intro s; rfl
  | cons a as ih =>
    intro s
    have hrun : runActions s (a :: as) = runActions (a.apply s) as := rfl
    rw [hrun, ih]
    cases a <;> simp [percentageStores, Action.apply, List.getLast?_cons]

theorem statesFrom_concat :
    ∀ (as : List Action) (s : Shared) (a : Action),
      statesFrom s (as ++ [a]) = statesFrom s as ++ [a.apply (runActions s as)] := by
  intro as
  induction as with
  | nil => intro s a; rfl
  | cons b bs ih =>
    intro s a
    have hrun : runActions s (b :: bs) = runActions (b.apply s) bs := rfl
    simp [statesFrom, ih, hrun]

theorem stopFlag_of_mem_statesFrom :
    ∀ (as : List Action) (s : Shared), stopFlagStores as = [] →
      ∀ t ∈ statesFrom s as, t.stopFlag = s.stopFlag := by
  intro as
  induction as with
  | nil => intro s _ t hs; simp [statesFrom] at hs; rw [hs]
  | cons a as ih =>
    intro s h t hs
    simp only [statesFrom, List.mem_cons] at hs
    rcases hs with rfl | hs
    · rfl
    · cases a with
      | storePercentage v =>
        have hnil : stopFlagStores as = [] := by simpa [stopFlagStores] using h
        exact ih ((Action.storePercentage v).apply s) hnil t hs
      | sleepFor ms =>
        have hnil : stopFlagStores as = [] := by simpa [stopFlagStores] using h
        exact ih ((Action.sleepFor ms).apply s) hnil t hs
      | storeStopFlag b => simp [stopFlagStores] at h

theorem getElem?_map_range {α : Type} (f : Nat → α) {n k : Nat} (h : k < n) :
    ((List.range n).map f)[k]? = some (f k) := by
  rw [List.getElem?_map, List.getElem?_range h]
  rfl

/-- The list of stored values of a run, read off `countdown` itself. -/
theorem exists_countdown_stores (D : Int) {l : List Nat}
    (h : (countdown D).map percentageStores = some l) :
    ∃ t, countdown D = some t ∧ percentageStores t = l := by
  rw [countdown_eq] at h
  exact ⟨_, countdown_eq D, Option.some.inj h⟩

/-- After at least one pass `percentage` holds the value of the last pass. -/
theorem bodiesFrom_final_percentage (D : Int) (h : 0 < wrapInt (D * 2)) :
    (runActions Shared.init (bodiesFrom (wrapInt (D * 2)) 1 (wrapInt (D * 2)).toNat)).percentage
      = calPercentage (wrapInt (D * 2)) (wrapInt (D * 2)) := by
  rw [runActions_percentage, percentageStores_bodiesFrom]
  obtain ⟨n, hn⟩ : ∃ n : Nat, (wrapInt (D * 2)).toNat = n + 1 :=
    ⟨(wrapInt (D * 2)).toNat - 1, by omega⟩
  have hf : (1 : Int) + (n : Int) = wrapInt (D * 2) := by omega
  rw [hn, List.range_succ, List.map_append, List.map_cons, List.map_nil,
    List.getLast?_concat, Option.getD_some, hf]

theorem runActions_concat (s : Shared) (as : List Action) (a : Action) :
    runActions s (as ++ [a]) = a.apply (runActions s as) := by
  unfold runActions
  rw [List.foldl_concat]

theorem storeStopFlag_percentage (b : Bool) (s : Shared) :
    ((Action.storeStopFlag b).apply s).percentage = s.percentage := rfl

theorem storeStopFlag_stopFlag (b : Bool) (s : Shared) :
    ((Action.storeStopFlag b).apply s).stopFlag = b := rfl

/-- State in which `countdown` leaves the shared variables when it makes at
least one pass: `stopFlag` false and `percentage` the value of the last pass. -/
theorem countdown_final_state (D : Int) (h : 0 < wrapInt (D * 2)) :
    (runActions Shared.init (bodiesFrom (wrapInt (D * 2)) 1 (wrapInt (D * 2)).toNat
        ++ [Action.storeStopFlag false])).stopFlag = false
      ∧ (runActions Shared.init (bodiesFrom (wrapInt (D * 2)) 1 (wrapInt (D * 2)).toNat
        ++ [Action.storeStopFlag false])).percentage
          = calPercentage (wrapInt (D * 2)) (wrapInt (D * 2)) := by
  rw [runActions_concat, storeStopFlag_percentage, storeStopFlag_stopFlag,
    bodiesFrom_final_percentage D h]
  exact ⟨rfl, rfl⟩

/-- The state `countdown` ends in is one of the states it goes through. -/
theorem runActions_mem_statesFrom_concat (s : Shared) (as : List Action) (a : Action) :
    runActions s (as ++ [a]) ∈ statesFrom s (as ++ [a]) := by
  rw [statesFrom_concat, runActions_concat]
  exact List.mem_append_right _ (List.mem_singleton.mpr rfl)

/-- For `D = 10737419` the final pass stores 4294967197. -/
theorem countdown_overflow_stores :
    ∃ t, countdown 10737419 = some t
      ∧ (percentageStores t)[21474838 - 1]? = some 4294967197 := by
  have hw : wrapInt ((10737419 : Int) * 2) = 21474838 := by decide
  have hn : (21474838 : Int).toNat = 21474838 := by decide
  have hc : calPercentage 21474838 (1 + ((21474837 : Nat) : Int)) = 4294967197 := by decide
  have h := percentageStores_countdown 10737419
  rw [hw, hn] at h
  obtain ⟨t, ht, hs⟩ := exists_countdown_stores _ h
  exact ⟨t, ht, by rw [hs, getElem?_map_range _ (by decide), hc]⟩

/-! ## Claims about `countdown` -/

/-- C1 (amended): for every duration `D >= 1` with `200 * D <= INT_MAX` and every
step `i` with `1 <= i <= 2*D`, `countdown(D)` returns and the percentage it
stores on step `i` is `floor(i*100 / (2*D))`; the value stored on the final step
is exactly 100; for `D = 2` the stored sequence is `[25, 50, 75, 100]`. -/
theorem countdown_percentage_formula (D i : Nat) (hD : 1 ≤ D) (hmax : 200 * D ≤ 2147483647)
    (hi : 1 ≤ i) (hi2 : i ≤ 2 * D) :
    ∃ t, countdown (D : Int) = some t
      ∧ (percentageStores t)[i - 1]? = some (i * 100 / (2 * D))
      ∧ (percentageStores t)[2 * D - 1]? = some 100
      ∧ (countdown 2).map percentageStores = some [25, 50, 75, 100] := by
  obtain ⟨t, ht, hs⟩ := exists_countdown_stores _ (percentageStores_countdown_natCast hmax)
  refine ⟨t, ht, ?_, ?_, by decide⟩
  · rw [hs, getElem?_map_range _ (by omega), Nat.sub_add_cancel hi]
  · rw [hs, getElem?_map_range _ (by omega), Nat.sub_add_cancel (by omega),
      Nat.mul_div_cancel_left 100 (by omega)]

/-- Witness for C1: `D = 2`, step `i = 3` stores 75. -/
theorem countdown_percentage_formula_witness :
    ∃ t, countdown ((2 : Nat) : Int) = some t
      ∧ (percentageStores t)[3 - 1]? = some (3 * 100 / (2 * 2))
      ∧ (percentageStores t)[2 * 2 - 1]? = some 100
      ∧ (countdown 2).map percentageStores = some [25, 50, 75, 100] :=
  countdown_percentage_formula 2 3 (by decide) (by decide) (by decide) (by decide)

/-- C1 as stated fails: for `D = 10737419` the product `i * 100` of the final
step `i = 21474838` leaves the range of `int`, and the value stored is
4294967197, not 100. -/
theorem countdown_percentage_overflow :
    ∃ t, countdown 10737419 = some t
      ∧ (percentageStores t)[21474838 - 1]? = some 4294967197
      ∧ (percentageStores t)[21474838 - 1]? ≠ some (21474838 * 100 / (2 * 10737419)) := by
  obtain ⟨t, ht, hv⟩ := countdown_overflow_stores
  refine ⟨t, ht, hv, ?_⟩
  rw [hv]
  decide

/-- C2 (amended): for every duration `D` with `200 * D <= INT_MAX`, so for every
`D >= 1` up to 10737418, `countdown(D)` returns and the sequence of values it
stores into `percentage`, starting from the initial value 0, is non-decreasing
with every value in `[0, 100]`. -/
theorem countdown_percentage_monotone (D : Nat) (hmax : 200 * D ≤ 2147483647) :
    ∃ t, countdown (D : Int) = some t
      ∧ List.Pairwise (fun a b => a ≤ b) (0 :: percentageStores t)
      ∧ ∀ v ∈ 0 :: percentageStores t, 0 ≤ v ∧ v ≤ 100 := by
  obtain ⟨t, ht, hs⟩ := exists_countdown_stores _ (percentageStores_countdown_natCast hmax)
  refine ⟨t, ht, ?_, ?_⟩
  · rw [List.pairwise_cons]
    refine ⟨fun a _ => Nat.zero_le a, ?_⟩
    rw [hs, List.pairwise_map]
    refine (List.pairwise_lt_range (2 * D)).imp ?_
    intro a b hab
    exact Nat.div_le_div_right (by omega)
  · intro v hv
    refine ⟨Nat.zero_le v, ?_⟩
    rcases List.mem_cons.mp hv with rfl | hv
    · exact Nat.zero_le _
    · rw [hs] at hv
      obtain ⟨k, hk, rfl⟩ := List.mem_map.mp hv
      rw [List.mem_range] at hk
      exact Nat.div_le_of_le_mul (by omega)

/-- Witness for C2: `D = 2`. -/
theorem countdown_percentage_monotone_witness :
    ∃ t, countdown ((2 : Nat) : Int) = some t
      ∧ List.Pairwise (fun a b => a ≤ b) (0 :: percentageStores t)
      ∧ ∀ v ∈ 0 :: percentageStores t, 0 ≤ v ∧ v ≤ 100 :=
  countdown_percentage_monotone 2 (by decide)

/-- C2 as stated fails: for `D = 10737419` one of the stored values is
4294967197, outside `[0, 100]`. -/
theorem countdown_percentage_out_of_range :
    ∃ t, countdown 10737419 = some t
      ∧ ¬ ∀ v ∈ 0 :: percentageStores t, 0 ≤ v ∧ v ≤ 100 := by
  obtain ⟨t, ht, hv⟩ := countdown_overflow_stores
  refine ⟨t, ht, fun hall => ?_⟩
  have hmem : 4294967197 ∈ 0 :: percentageStores t :=
    List.mem_cons_of_mem _ (List.getElem?_mem hv)
  exact absurd (hall _ hmem).2 (by decide)

/-- C8 (amended): for every duration `D >= 0` with `2 * D <= INT_MAX`,
`countdown(D)` returns after exactly `2*D` steps, one percentage store each and
none of them writing `stopFlag`, followed by one store of false to `stopFlag` as
its last action; `stopFlag` starts true, stays true through all the steps, false
is the only value ever written to it, and nothing is written after it. -/
theorem countdown_step_count (D : Nat) (hmax : 2 * D ≤ 2147483647) :
    ∃ steps, countdown (D : Int) = some (steps ++ [Action.storeStopFlag false])
      ∧ (percentageStores steps).length = 2 * D
      ∧ stopFlagStores steps = []
      ∧ stopFlagStores (steps ++ [Action.storeStopFlag false]) = [false]
      ∧ percentageStores (steps ++ [Action.storeStopFlag false]) = percentageStores steps
      ∧ Shared.init.stopFlag = true
      ∧ (∀ s ∈ statesFrom Shared.init steps, s.stopFlag = true)
      ∧ (runActions Shared.init (steps ++ [Action.storeStopFlag false])).stopFlag = false := by
  have hw : wrapInt ((D : Int) * 2) = ((2 * D : Nat) : Int) := wrapInt_double_natCast hmax
  have hflag := stopFlagStores_bodiesFrom (wrapInt ((D : Int) * 2)) (wrapInt ((D : Int) * 2)).toNat 1
  refine ⟨_, countdown_eq D, ?_, hflag, ?_, ?_, rfl, ?_, ?_⟩
  · rw [percentageStores_bodiesFrom, List.length_map, List.length_range, hw, Int.toNat_ofNat]
  · rw [stopFlagStores_append, hflag]
    rfl
  · rw [percentageStores_append]
    exact List.append_nil _
  · exact stopFlag_of_mem_statesFrom _ _ hflag
  · rw [runActions_concat]
    rfl

/-- Witness for C8: `D = 2`. -/
theorem countdown_step_count_witness :
    ∃ steps, countdown ((2 : Nat) : Int) = some (steps ++ [Action.storeStopFlag false])
      ∧ (percentageStores steps).length = 2 * 2
      ∧ stopFlagStores steps = []
      ∧ stopFlagStores (steps ++ [Action.storeStopFlag false]) = [false]
      ∧ percentageStores (steps ++ [Action.storeStopFlag false]) = percentageStores steps
      ∧ Shared.init.stopFlag = true
      ∧ (∀ s ∈ statesFrom Shared.init steps, s.stopFlag = true)
      ∧ (runActions Shared.init (steps ++ [Action.storeStopFlag false])).stopFlag = false :=
  countdown_step_count 2 (by decide)

/-- C8 as stated fails: for `D = 1073741824` the product `finish * 2` leaves the
range of `int`; `countdown` makes no step at all instead of `2*D`. -/
theorem countdown_step_count_overflow :
    countdown 1073741824 = some [Action.storeStopFlag false]
      ∧ (percentageStores [Action.storeStopFlag false]).length ≠ 2 * 1073741824 := by
  decide

/-- C10 (amended): for every duration `D >= 1` with `200 * D <= INT_MAX`,
`countdown(D)` returns and in every state it goes through from the initial state
(`stopFlag` true, `percentage` 0), `stopFlag` false implies `percentage` 100;
for every `E` with `-2^30 <= E <= 0`, `countdown(E)` makes no step and sets
`stopFlag` to false with `percentage` still 0. -/
theorem countdown_stop_implies_full (D : Nat) (E : Int) (hD : 1 ≤ D)
    (hmax : 200 * D ≤ 2147483647) (hE : -1073741824 ≤ E) (hE0 : E ≤ 0) :
    (∃ t, countdown (D : Int) = some t
        ∧ ∀ s ∈ statesFrom Shared.init t, s.stopFlag = false → s.percentage = 100)
      ∧ (countdown E = some [Action.storeStopFlag false]
        ∧ ∃ s ∈ statesFrom Shared.init [Action.storeStopFlag false],
            s.stopFlag = false ∧ s.percentage = 0) := by
  constructor
  · have hw : wrapInt ((D : Int) * 2) = ((2 * D : Nat) : Int) :=
      wrapInt_double_natCast (by omega)
    have hpos : 0 < wrapInt ((D : Int) * 2) := by rw [hw]; omega
    have hfin := (countdown_final_state (D : Int) hpos).2
    have hcal : calPercentage (wrapInt ((D : Int) * 2)) (wrapInt ((D : Int) * 2)) = 100 := by
      rw [hw, calPercentage_natCast _ _ (by omega), Nat.mul_div_cancel_left 100 (by omega)]
    refine ⟨_, countdown_eq D, ?_⟩
    intro s hs hstop
    rw [statesFrom_concat] at hs
    rcases List.mem_append.mp hs with hs | hs
    · have htrue := stopFlag_of_mem_statesFrom _ Shared.init
        (stopFlagStores_bodiesFrom _ _ _) s hs
      rw [hstop] at htrue
      exact absurd htrue (by decide)
    · rw [List.mem_singleton.mp hs, ← runActions_concat, hfin, hcal]
  · have hn : (wrapInt (E * 2)).toNat = 0 := by unfold wrapInt; omega
    refine ⟨?_, ⟨_, runActions_mem_statesFrom_concat Shared.init [] _, rfl, rfl⟩⟩
    rw [countdown_eq, hn]
    rfl

/-- Witness for C10: `D = 2` and `E = -3`. -/
theorem countdown_stop_implies_full_witness :
    (∃ t, countdown ((2 : Nat) : Int) = some t
        ∧ ∀ s ∈ statesFrom Shared.init t, s.stopFlag = false → s.percentage = 100)
      ∧ (countdown (-3) = some [Action.storeStopFlag false]
        ∧ ∃ s ∈ statesFrom Shared.init [Action.storeStopFlag false],
            s.stopFlag = false ∧ s.percentage = 0) :=
  countdown_stop_implies_full 2 (-3) (by decide) (by decide) (by decide) (by decide)

/-- C10 as stated fails on both sides: for `D = 10737419` the run ends with
`stopFlag` false and `percentage` 4294967197; for `D = -2147483647` the product
`finish * 2` wraps to 2, two steps are made and the invariant holds. -/
theorem countdown_stop_overflow :
    (∃ t, countdown 10737419 = some t
        ∧ ¬ ∀ s ∈ statesFrom Shared.init t, s.stopFlag = false → s.percentage = 100)
      ∧ (∃ t, countdown (-2147483647) = some t
        ∧ (percentageStores t).length = 2
        ∧ ∀ s ∈ statesFrom Shared.init t, s.stopFlag = false → s.percentage = 100) := by
  constructor
  · have hw : wrapInt ((10737419 : Int) * 2) = 21474838 := by decide
    have hc : calPercentage 21474838 21474838 = 4294967197 := by decide
    have hfin := countdown_final_state 10737419 (by rw [hw]; decide)
    refine ⟨_, countdown_eq 10737419, fun hall => ?_⟩
    have h := hall _ (runActions_mem_statesFrom_concat Shared.init _ _) hfin.1
    rw [hfin.2, hw, hc] at h
    exact absurd h (by decide)
  · exact ⟨[.storePercentage 50, .sleepFor 500, .storePercentage 100, .sleepFor 500,
      .storeStopFlag false], by decide, by decide, by decide⟩

/-! ## The frame of `printProgressBar` without overflow -/

theorem ofUInt_of_le {p : Nat} (hp : p ≤ 2147483647) : ofUInt p = (p : Int) := by
  unfold ofUInt
  exact wrapInt_of_range (by omega) (by omega)

theorem avance_natCast (size p : Nat) (h : size * p ≤ 2147483647) :
    avance (size : Int) (p : Int) = ((size * p / 100 : Nat) : Int) := by
  have hq : size * p / 100 ≤ size * p := Nat.div_le_self _ _
  have e1 : wrapInt ((size : Int) * (p : Int)) = ((size * p : Nat) : Int) := by
    rw [← Nat.cast_mul]
    generalize size * p = m at h
    exact wrapInt_of_range (by omega) (by omega)
  have e2 : Int.tdiv ((size * p : Nat) : Int) 100 = ((size * p / 100 : Nat) : Int) :=
    (Int.ofNat_tdiv _ 100).symm
  have e3 : wrapInt ((size * p / 100 : Nat) : Int) = ((size * p / 100 : Nat) : Int) := by
    generalize size * p / 100 = q at hq
    generalize size * p = m at h hq
    exact wrapInt_of_range (by omega) (by omega)
  unfold avance intDiv intMul
  rw [e1, e2, e3]

theorem stdString_natCast (n : Nat) (ch : Char) :
    stdString (n : Int) ch = some (String.mk (List.replicate n ch)) := by
  have h : ¬ ((n : Int) < 0) := by omega
  unfold stdString
  rw [if_neg h, Int.toNat_ofNat]

theorem intSub_natCast {a b : Nat} (hb : b ≤ a) (ha : a ≤ 2147483647) :
    intSub (a : Int) (b : Int) = ((a - b : Nat) : Int) := by
  unfold intSub
  rw [wrapInt_of_range (by omega) (by omega)]
  omega

theorem filled_le_size (size p : Nat) (hp : p ≤ 100) : size * p / 100 ≤ size :=
  Nat.div_le_of_le_mul (by rw [Nat.mul_comm 100]; exact Nat.mul_le_mul_left _ hp)

/-- Operands of the third output statement when nothing overflows. -/
theorem frameBar_natCast (size p : Nat) (fillChar spaceChar : Char) (hp : p ≤ 100)
    (hsize : size ≤ 2147483647) (h : size * p ≤ 2147483647) :
    frameBar (size : Int) fillChar spaceChar p
      = some [.control green, .text (String.mk (List.replicate (size * p / 100) fillChar)),
          .control colourReset,
          .text (String.mk (List.replicate (size - size * p / 100) spaceChar)),
          .text "] ", .control (if p = 100 then green else ""), .text (toString p),
          .text "%"] := by
  have hle := filled_le_size size p hp
  have hcond : (if (p : Int) = 100 then green else "") = (if p = 100 then green else "") := by
    by_cases hc : p = 100
    · rw [if_pos hc, if_pos (by omega)]
    · rw [if_neg hc, if_neg (by omega)]
  unfold frameBar
  rw [ofUInt_of_le (by omega)]
  show (do
    let filled ← stdString (avance (size : Int) (p : Int)) fillChar
    let rest ← stdString (intSub (size : Int) (avance (size : Int) (p : Int))) spaceChar
    pure [Piece.control green, Piece.text filled, Piece.control colourReset, Piece.text rest,
      Piece.text "] ", Piece.control (if (p : Int) = 100 then green else ""),
      Piece.text (toString (p : Int)), Piece.text "%"]) = _
  rw [avance_natCast size p h, stdString_natCast, intSub_natCast hle hsize, stdString_natCast,
    hcond]
  rfl

theorem renderFrame_natCast (size p : Nat) (fillChar spaceChar : Char) (hp : p ≤ 100)
    (hsize : size ≤ 2147483647) (h : size * p ≤ 2147483647) :
    renderFrame (size : Int) fillChar spaceChar p
      = some [.control cursorHide, .control "\r", .text "[", .control green,
          .text (String.mk (List.replicate (size * p / 100) fillChar)), .control colourReset,
          .text (String.mk (List.replicate (size - size * p / 100) spaceChar)),
          .text "] ", .control (if p = 100 then green else ""), .text (toString p),
          .text "%"] := by
  unfold renderFrame
  rw [frameBar_natCast size p fillChar spaceChar hp hsize h]
  rfl

/-- C3 (amended): for every bar size `0 <= barSize <= INT_MAX` and every
percentage `p` in `[0, 100]` with `barSize * p <= INT_MAX`, the filled width
`(barSize * p) / 100` computed by `printProgressBar` is `floor(barSize*p/100)`
and satisfies `0 <= filled <= barSize`, so both lengths passed to `std::string`
(`filled` and `barSize - filled`) are non-negative and both strings are built. -/
theorem avance_within_bar (barSize p : Nat) (hp : p ≤ 100) (hsize : barSize ≤ 2147483647)
    (hmax : barSize * p ≤ 2147483647) :
    avance (barSize : Int) (ofUInt p) = ((barSize * p / 100 : Nat) : Int)
      ∧ 0 ≤ avance (barSize : Int) (ofUInt p)
      ∧ avance (barSize : Int) (ofUInt p) ≤ (barSize : Int)
      ∧ 0 ≤ intSub (barSize : Int) (avance (barSize : Int) (ofUInt p))
      ∧ ∀ ch : Char, (stdString (avance (barSize : Int) (ofUInt p)) ch).isSome = true
          ∧ (stdString (intSub (barSize : Int) (avance (barSize : Int) (ofUInt p))) ch).isSome
              = true := by
  have hle := filled_le_size barSize p hp
  rw [ofUInt_of_le (by omega), avance_natCast barSize p hmax, intSub_natCast hle hsize]
  refine ⟨rfl, by omega, by omega, by omega, fun ch => ?_⟩
  rw [stdString_natCast, stdString_natCast]
  exact ⟨rfl, rfl⟩

/-- Witness for C3: bar size 10 at 50 percent. -/
theorem avance_within_bar_witness :
    avance ((10 : Nat) : Int) (ofUInt 50) = ((10 * 50 / 100 : Nat) : Int)
      ∧ 0 ≤ avance ((10 : Nat) : Int) (ofUInt 50)
      ∧ avance ((10 : Nat) : Int) (ofUInt 50) ≤ ((10 : Nat) : Int)
      ∧ 0 ≤ intSub ((10 : Nat) : Int) (avance ((10 : Nat) : Int) (ofUInt 50))
      ∧ ∀ ch : Char, (stdString (avance ((10 : Nat) : Int) (ofUInt 50)) ch).isSome = true
          ∧ (stdString (intSub ((10 : Nat) : Int) (avance ((10 : Nat) : Int) (ofUInt 50)))
              ch).isSome = true :=
  avance_within_bar 10 50 (by decide) (by decide) (by decide)

/-- C3 as stated fails: for `barSize = 21474837` and `p = 100` the product
leaves the range of `int` and the filled width is negative. -/
theorem avance_overflow :
    avance 21474837 (ofUInt 100) = -21474835 ∧ ¬ 0 ≤ avance 21474837 (ofUInt 100) := by
  decide

/-- C4 (amended): for every bar size `0 <= barSize <= INT_MAX`, fill character,
space character and percentage `p` in `[0, 100]` with `barSize * p <= INT_MAX`,
one pass of the loop body renders a frame whose visible content (the control
sequences left out) is `[`, the fill character `filled` times, the space
character `barSize - filled` times, `] `, the decimal percentage and `%`, in
that order, with `filled = floor(barSize * p / 100)`; bar size 10 at 50 percent
with `#` and `-` renders `[#####-----] 50%`. -/
theorem renderFrame_content (barSize p : Nat) (fillChar spaceChar : Char) (hp : p ≤ 100)
    (hsize : barSize ≤ 2147483647) (hmax : barSize * p ≤ 2147483647) :
    (renderFrame (barSize : Int) fillChar spaceChar p).map Piece.content
        = some ("[" ++ String.mk (List.replicate (barSize * p / 100) fillChar)
            ++ String.mk (List.replicate (barSize - barSize * p / 100) spaceChar)
            ++ "] " ++ toString p ++ "%")
      ∧ (renderFrame 10 '#' '-' 50).map Piece.content = some "[#####-----] 50%" := by
  refine ⟨?_, by decide⟩
  rw [renderFrame_natCast barSize p fillChar spaceChar hp hsize hmax]
  simp only [Option.map, Piece.content, String.append_assoc, String.append_empty]

/-- Witness for C4: bar size 10 at 50 percent. -/
theorem renderFrame_content_witness :
    (renderFrame ((10 : Nat) : Int) '#' '-' 50).map Piece.content
        = some ("[" ++ String.mk (List.replicate (10 * 50 / 100) '#')
            ++ String.mk (List.replicate (10 - 10 * 50 / 100) '-')
            ++ "] " ++ toString 50 ++ "%")
      ∧ (renderFrame 10 '#' '-' 50).map Piece.content = some "[#####-----] 50%" :=
  renderFrame_content 10 50 '#' '-' (by decide) (by decide) (by decide)

/-- C4 as stated fails: for bar size 21474837 at 100 percent the filled width is
negative, `std::string` throws and no frame is rendered. -/
theorem renderFrame_content_overflow :
    renderFrame 21474837 '#' '-' 100 = none
      ∧ ∀ content : String,
          (renderFrame 21474837 '#' '-' 100).map Piece.content ≠ some content := by
  have h : renderFrame 21474837 '#' '-' 100 = none := by decide
  refine ⟨h, fun content hc => ?_⟩
  rw [h] at hc
  exact Option.noConfusion hc

/-- C5 (amended): for every bar size `0 <= barSize <= INT_MAX` and every
percentage `p` in `[0, 100]` with `barSize * p <= INT_MAX`, the frame
`printProgressBar` renders has, between the brackets, the fill segment of
`floor(barSize * p / 100)` fill characters and the space segment of space
characters, together exactly `barSize` characters. -/
theorem renderFrame_bar_lengths (barSize p : Nat) (fillChar spaceChar : Char) (hp : p ≤ 100)
    (hsize : barSize ≤ 2147483647) (hmax : barSize * p ≤ 2147483647) :
    ∃ filled rest e digits,
      renderFrame (barSize : Int) fillChar spaceChar p
          = some [.control cursorHide, .control "\r", .text "[", .control green, .text filled,
              .control colourReset, .text rest, .text "] ", .control e, .text digits,
              .text "%"]
        ∧ filled.length = barSize * p / 100
        ∧ (∀ c ∈ filled.data, c = fillChar)
        ∧ (∀ c ∈ rest.data, c = spaceChar)
        ∧ filled.length + rest.length = barSize := by
  have hle := filled_le_size barSize p hp
  refine ⟨_, _, _, _, renderFrame_natCast barSize p fillChar spaceChar hp hsize hmax,
    ?_, ?_, ?_, ?_⟩
  · exact List.length_replicate _ _
  · intro c hc
    exact List.eq_of_mem_replicate hc
  · intro c hc
    exact List.eq_of_mem_replicate hc
  · show (List.replicate _ fillChar).length + (List.replicate _ spaceChar).length = barSize
    rw [List.length_replicate, List.length_replicate]
    omega

/-- Witness for C5: bar size 30 at 75 percent. -/
theorem renderFrame_bar_lengths_witness :
    ∃ filled rest e digits,
      renderFrame ((30 : Nat) : Int) '#' '-' 75
          = some [.control cursorHide, .control "\r", .text "[", .control green, .text filled,
              .control colourReset, .text rest, .text "] ", .control e, .text digits,
              .text "%"]
        ∧ filled.length = 30 * 75 / 100
        ∧ (∀ c ∈ filled.data, c = '#')
        ∧ (∀ c ∈ rest.data, c = '-')
        ∧ filled.length + rest.length = 30 :=
  renderFrame_bar_lengths 30 75 '#' '-' (by decide) (by decide) (by decide)

/-- C5 as stated fails: for bar size 2147483647 at 100 percent the product wraps
to -100, the filled width is -1, `std::string` throws and no frame is
rendered. -/
theorem renderFrame_bar_overflow :
    avance 2147483647 (ofUInt 100) = -1
      ∧ renderFrame 2147483647 '#' '-' 100 = none := by
  decide

theorem printProgressBarRun_cons (size : Int) (fillChar spaceChar : Char) (m : Shared)
    (ms : List Shared) (r : Renderer) :
    printProgressBarRun size fillChar spaceChar (m :: ms) r
      = printProgressBarRun size fillChar spaceChar ms
          (printProgressBarStep size fillChar spaceChar m r) := rfl

theorem printProgressBarRun_append (size : Int) (fillChar spaceChar : Char)
    (ms ms2 : List Shared) (r : Renderer) :
    printProgressBarRun size fillChar spaceChar (ms ++ ms2) r
      = printProgressBarRun size fillChar spaceChar ms2
          (printProgressBarRun size fillChar spaceChar ms r) := by
  unfold printProgressBarRun
  rw [List.foldl_append]

theorem step_done (size : Int) (fillChar spaceChar : Char) (m : Shared) (r : Renderer)
    (h : r.pc = .done) : printProgressBarStep size fillChar spaceChar m r = r := by
  simp only [printProgressBarStep, h]

theorem step_aborted (size : Int) (fillChar spaceChar : Char) (m : Shared) (r : Renderer)
    (h : r.pc = .aborted) : printProgressBarStep size fillChar spaceChar m r = r := by
  simp only [printProgressBarStep, h]

theorem step_check_false (size : Int) (fillChar spaceChar : Char) (m : Shared) (r : Renderer)
    (h : r.pc = .check) (hm : m.stopFlag = false) :
    printProgressBarStep size fillChar spaceChar m r
      = { pc := .done, out := r.out ++ [epilogue] } := by
  simp [printProgressBarStep, h, hm]

theorem step_sleeping (size : Int) (fillChar spaceChar : Char) (m : Shared) (r : Renderer)
    (h : r.pc = .sleeping) :
    printProgressBarStep size fillChar spaceChar m r = { pc := .check, out := r.out } := by
  simp only [printProgressBarStep, h]

theorem step_body (size : Int) (fillChar spaceChar : Char) (m : Shared) (r : Renderer)
    (h : r.pc = .body) :
    (∃ bar, frameBar size fillChar spaceChar m.percentage = some bar
        ∧ printProgressBarStep size fillChar spaceChar m r
          = { pc := .sleeping, out := r.out ++ [frameHead ++ bar] })
      ∨ (frameBar size fillChar spaceChar m.percentage = none
        ∧ printProgressBarStep size fillChar spaceChar m r
          = { pc := .aborted,
              out := r.out ++ [frameHead ++ thrownBar size fillChar m.percentage] }) := by
  cases hb : frameBar size fillChar spaceChar m.percentage with
  | none => right; simp only [printProgressBarStep, h, hb, and_self]
  | some bar => left; exact ⟨bar, rfl, by simp only [printProgressBarStep, h, hb]⟩

theorem run_done (size : Int) (fillChar spaceChar : Char) :
    ∀ (ms : List Shared) (r : Renderer), r.pc = .done →
      printProgressBarRun size fillChar spaceChar ms r = r := by
  intro ms
  induction ms with
  | nil => intro r _; rfl
  | cons m ms ih =>
    intro r h
    rw [printProgressBarRun_cons, step_done _ _ _ _ _ h]
    exact ih r h

theorem run_aborted (size : Int) (fillChar spaceChar : Char) :
    ∀ (ms : List Shared) (r : Renderer), r.pc = .aborted →
      printProgressBarRun size fillChar spaceChar ms r = r := by
  intro ms
  induction ms with
  | nil => intro r _; rfl
  | cons m ms ih =>
    intro r h
    rw [printProgressBarRun_cons, step_aborted _ _ _ _ _ h]
    exact ih r h

theorem run_check_false (size : Int) (fillChar spaceChar : Char) (r : Renderer)
    (h : r.pc = .check) (m : Shared) (ms : List Shared) (hm : m.stopFlag = false) :
    printProgressBarRun size fillChar spaceChar (m :: ms) r
      = { pc := .done, out := r.out ++ [epilogue] } := by
  rw [printProgressBarRun_cons, step_check_false _ _ _ _ _ h hm, run_done _ _ _ _ _ rfl]

theorem run_sleeping_false (size : Int) (fillChar spaceChar : Char) (r : Renderer)
    (h : r.pc = .sleeping) (m m2 : Shared) (ms : List Shared) (hm : m2.stopFlag = false) :
    printProgressBarRun size fillChar spaceChar (m :: m2 :: ms) r
      = { pc := .done, out := r.out ++ [epilogue] } := by
  rw [printProgressBarRun_cons, step_sleeping _ _ _ _ _ h,
    run_check_false _ _ _ _ rfl _ _ hm]

/-- With `stopFlag` false from now on: at most one more entry is printed before
the epilogue, and only by a pass that was already in progress; within three
steps the thread has returned or was ended by an exception. -/
theorem run_after_false (size : Int) (fillChar spaceChar : Char) (r : Renderer)
    (after : List Shared) (hfalse : ∀ m ∈ after, m.stopFlag = false) :
    (∃ frames : List (List Piece), frames.length ≤ 1
        ∧ (r.pc ≠ .body → frames = [])
        ∧ (printProgressBarRun size fillChar spaceChar after r).out
            = r.out ++ frames
              ++ (if r.pc ≠ .done ∧ (printProgressBarRun size fillChar spaceChar after r).pc = .done
                  then [epilogue] else []))
      ∧ (3 ≤ after.length →
          (printProgressBarRun size fillChar spaceChar after r).pc = .done
            ∨ (printProgressBarRun size fillChar spaceChar after r).pc = .aborted) := by
  cases hpc : r.pc with
  | done =>
    rw [run_done _ _ _ _ _ hpc]
    exact ⟨⟨[], by simp, fun _ => rfl, by simp [hpc]⟩, fun _ => Or.inl hpc⟩
  | aborted =>
    rw [run_aborted _ _ _ _ _ hpc]
    exact ⟨⟨[], by simp, fun _ => rfl, by simp [hpc]⟩, fun _ => Or.inr hpc⟩
  | check =>
    cases after with
    | nil =>
      exact ⟨⟨[], by simp, fun _ => rfl, by simp [printProgressBarRun, hpc]⟩,
        fun h => by simp at h⟩
    | cons m ms =>
      rw [run_check_false _ _ _ _ hpc _ _ (hfalse m (by simp))]
      exact ⟨⟨[], by simp, fun _ => rfl, by simp⟩, fun _ => Or.inl rfl⟩
  | sleeping =>
    cases after with
    | nil =>
      exact ⟨⟨[], by simp, fun _ => rfl, by simp [printProgressBarRun, hpc]⟩,
        fun h => by simp at h⟩
    | cons m ms =>
      cases ms with
      | nil =>
        rw [printProgressBarRun_cons, step_sleeping _ _ _ _ _ hpc]
        exact ⟨⟨[], by simp, fun _ => rfl, by simp [printProgressBarRun]⟩,
          fun h => by simp at h⟩
      | cons m2 ms2 =>
        rw [run_sleeping_false _ _ _ _ hpc _ _ _ (hfalse m2 (by simp))]
        exact ⟨⟨[], by simp, fun _ => rfl, by simp⟩, fun _ => Or.inl rfl⟩
  | body =>
    cases after with
    | nil =>
      exact ⟨⟨[], by simp, fun _ => rfl, by simp [printProgressBarRun, hpc]⟩,
        fun h => by simp at h⟩
    | cons m ms =>
      rw [printProgressBarRun_cons]
      rcases step_body size fillChar spaceChar m r hpc with ⟨bar, _, hstep⟩ | ⟨_, hstep⟩
      · rw [hstep]
        cases ms with
        | nil =>
          exact ⟨⟨[frameHead ++ bar], by simp, fun h => absurd rfl h,
            by simp [printProgressBarRun]⟩, fun h => by simp at h⟩
        | cons m2 ms2 =>
          cases ms2 with
          | nil =>
            rw [printProgressBarRun_cons, step_sleeping _ _ _ _ _ rfl]
            exact ⟨⟨[frameHead ++ bar], by simp, fun h => absurd rfl h,
              by simp [printProgressBarRun]⟩, fun h => by simp at h⟩
          | cons m3 ms3 =>
            rw [run_sleeping_false _ _ _ _ rfl _ _ _ (hfalse m3 (by simp))]
            exact ⟨⟨[frameHead ++ bar], by simp, fun h => absurd rfl h, by simp⟩,
              fun _ => Or.inl rfl⟩
      · rw [hstep, run_aborted _ _ _ _ _ rfl]
        exact ⟨⟨[frameHead ++ thrownBar size fillChar m.percentage], by simp,
          fun h => absurd rfl h, by simp⟩, fun _ => Or.inr rfl⟩

/-- As long as every load of `stopFlag` returns true the thread does not
return. -/
theorem run_true_not_done (size : Int) (fillChar spaceChar : Char) :
    ∀ (ms : List Shared) (r : Renderer), r.pc ≠ .done →
      (∀ m ∈ ms, m.stopFlag = true) →
        (printProgressBarRun size fillChar spaceChar ms r).pc ≠ .done := by
  intro ms
  induction ms with
  | nil => intro r h _; exact h
  | cons m ms ih =>
    intro r h hall
    rw [printProgressBarRun_cons]
    refine ih _ ?_ (fun m2 hm2 => hall m2 (List.mem_cons_of_mem _ hm2))
    cases hpc : r.pc with
    | done => exact absurd hpc h
    | aborted => rw [step_aborted _ _ _ _ _ hpc, hpc]; intro hd; cases hd
    | sleeping => rw [step_sleeping _ _ _ _ _ hpc]; intro hd; cases hd
    | body =>
      rcases step_body size fillChar spaceChar m r hpc with ⟨bar, _, hstep⟩ | ⟨_, hstep⟩
      · rw [hstep]; intro hd; cases hd
      · rw [hstep]; intro hd; cases hd
    | check =>
      have hm : m.stopFlag = true := hall m (List.mem_cons_self _ _)
      have : printProgressBarStep size fillChar spaceChar m r = { r with pc := .body } := by
        simp [printProgressBarStep, hpc, hm]
      rw [this]
      intro hd
      cases hd

/-- A renderer that has returned has printed the epilogue last. -/
theorem step_epilogue_last (size : Int) (fillChar spaceChar : Char) (m : Shared)
    (r : Renderer) (h : r.pc = .done → r.out.getLast? = some epilogue) :
    (printProgressBarStep size fillChar spaceChar m r).pc = .done →
      (printProgressBarStep size fillChar spaceChar m r).out.getLast? = some epilogue := by
  cases hpc : r.pc with
  | done => rw [step_done _ _ _ _ _ hpc]; exact h
  | aborted => rw [step_aborted _ _ _ _ _ hpc]; exact h
  | sleeping => rw [step_sleeping _ _ _ _ _ hpc]; intro hd; cases hd
  | body =>
    rcases step_body size fillChar spaceChar m r hpc with ⟨bar, _, hstep⟩ | ⟨_, hstep⟩
    · rw [hstep]; intro hd; cases hd
    · rw [hstep]; intro hd; cases hd
  | check =>
    cases hm : m.stopFlag with
    | false =>
      rw [step_check_false _ _ _ _ _ hpc hm]
      intro _
      exact List.getLast?_concat _
    | true =>
      have : printProgressBarStep size fillChar spaceChar m r = { r with pc := .body } := by
        simp [printProgressBarStep, hpc, hm]
      rw [this]
      intro hd
      cases hd

theorem run_epilogue_last (size : Int) (fillChar spaceChar : Char) :
    ∀ (ms : List Shared) (r : Renderer), (r.pc = .done → r.out.getLast? = some epilogue) →
      (printProgressBarRun size fillChar spaceChar ms r).pc = .done →
        (printProgressBarRun size fillChar spaceChar ms r).out.getLast? = some epilogue := by
  intro ms
  induction ms with
  | nil => intro r h; exact h
  | cons m ms ih =>
    intro r h
    rw [printProgressBarRun_cons]
    exact ih _ (step_epilogue_last size fillChar spaceChar m r h)

/-- No exception ends the thread as long as every frame can be built. -/
theorem run_not_aborted (size : Int) (fillChar spaceChar : Char) :
    ∀ (ms : List Shared) (r : Renderer), r.pc ≠ .aborted →
      (∀ m ∈ ms, (frameBar size fillChar spaceChar m.percentage).isSome = true) →
        (printProgressBarRun size fillChar spaceChar ms r).pc ≠ .aborted := by
  intro ms
  induction ms with
  | nil => intro r h _; exact h
  | cons m ms ih =>
    intro r h hall
    rw [printProgressBarRun_cons]
    refine ih _ ?_ (fun m2 hm2 => hall m2 (List.mem_cons_of_mem _ hm2))
    cases hpc : r.pc with
    | done => rw [step_done _ _ _ _ _ hpc]; exact h
    | aborted => exact absurd hpc h
    | sleeping => rw [step_sleeping _ _ _ _ _ hpc]; intro hd; cases hd
    | body =>
      rcases step_body size fillChar spaceChar m r hpc with ⟨bar, _, hstep⟩ | ⟨hb, _⟩
      · rw [hstep]; intro hd; cases hd
      · have := hall m (List.mem_cons_self _ _)
        rw [hb] at this
        exact absurd this (by decide)
    | check =>
      cases hm : m.stopFlag with
      | false => rw [step_check_false _ _ _ _ _ hpc hm]; intro hd; cases hd
      | true =>
        have : printProgressBarStep size fillChar spaceChar m r = { r with pc := .body } := by
          simp [printProgressBarStep, hpc, hm]
        rw [this]
        intro hd
        cases hd

/-! ## Claim about the loop of `printProgressBar` -/

/-- C7 (amended): let the renderer have run from thread start through any
memory states `before`, and let `stopFlag` be false in all the memory states
`after` that follow.  Then during `after` it prints at most one more entry
before the epilogue, and none at all unless a pass was already in progress (it
was inside the loop body); within three steps it has left the loop, by returning
or by the exception of a `std::string` that cannot be built; it has returned
whenever every `std::string` of a pass can be built; it is not ended by that
exception then; whenever it has returned, the last thing it printed is the
epilogue: colour reset `\033[0m`, cursor show `\033[?25h`, newline; once
returned (DONE) no step changes it, so it never runs again; and as long as every
load of `stopFlag` returned true it has not returned. -/
theorem printProgressBar_exit (size : Int) (fillChar spaceChar : Char)
    (before after : List Shared) (hfalse : ∀ m ∈ after, m.stopFlag = false) :
    (∃ frames : List (List Piece), frames.length ≤ 1
        ∧ ((printProgressBarRun size fillChar spaceChar before Renderer.init).pc ≠ .body →
            frames = [])
        ∧ (printProgressBarRun size fillChar spaceChar (before ++ after) Renderer.init).out
            = (printProgressBarRun size fillChar spaceChar before Renderer.init).out ++ frames
              ++ (if (printProgressBarRun size fillChar spaceChar before Renderer.init).pc ≠ .done
                    ∧ (printProgressBarRun size fillChar spaceChar (before ++ after)
                        Renderer.init).pc = .done
                  then [epilogue] else []))
      ∧ (3 ≤ after.length →
          (printProgressBarRun size fillChar spaceChar (before ++ after) Renderer.init).pc = .done
            ∨ (printProgressBarRun size fillChar spaceChar (before ++ after) Renderer.init).pc
                = .aborted)
      ∧ ((∀ m ∈ before ++ after,
            (frameBar size fillChar spaceChar m.percentage).isSome = true) →
          (printProgressBarRun size fillChar spaceChar (before ++ after) Renderer.init).pc
              ≠ .aborted
            ∧ (3 ≤ after.length →
                (printProgressBarRun size fillChar spaceChar (before ++ after)
                  Renderer.init).pc = .done))
      ∧ ((printProgressBarRun size fillChar spaceChar (before ++ after) Renderer.init).pc
            = .done →
          (printProgressBarRun size fillChar spaceChar (before ++ after)
              Renderer.init).out.getLast? = some epilogue
            ∧ ∀ m : Shared,
                printProgressBarStep size fillChar spaceChar m
                    (printProgressBarRun size fillChar spaceChar (before ++ after)
                      Renderer.init)
                  = printProgressBarRun size fillChar spaceChar (before ++ after)
                      Renderer.init)
      ∧ ((∀ m ∈ before, m.stopFlag = true) →
          (printProgressBarRun size fillChar spaceChar before Renderer.init).pc ≠ .done)
      ∧ epilogue = [.control "\x1b[0m", .control "\x1b[?25h", .text "\n"] := by
  have hinit : Renderer.init.pc = .done → Renderer.init.out.getLast? = some epilogue := by
    intro h
    cases h
  have hstart : Renderer.init.pc ≠ .done := by
    intro h
    cases h
  obtain ⟨h1, h2⟩ := run_after_false size fillChar spaceChar
    (printProgressBarRun size fillChar spaceChar before Renderer.init) after hfalse
  have hlast := run_epilogue_last size fillChar spaceChar (before ++ after) Renderer.init hinit
  rw [printProgressBarRun_append] at hlast ⊢
  refine ⟨h1, h2, ?_, ?_, ?_, rfl⟩
  · intro hall
    have hna := run_not_aborted size fillChar spaceChar (before ++ after) Renderer.init
      (by intro h; cases h) hall
    rw [printProgressBarRun_append] at hna
    refine ⟨hna, fun h3 => ?_⟩
    rcases h2 h3 with hd | ha
    · exact hd
    · exact absurd ha hna
  · intro hd
    exact ⟨hlast hd, fun m => step_done _ _ _ _ _ hd⟩
  · exact run_true_not_done size fillChar spaceChar before Renderer.init hstart

/-- Witness for C7: bar size 10; the renderer has loaded `stopFlag` (true) once
and is inside the loop body when `stopFlag` becomes false with `percentage` at
100; it prints that one frame, sleeps, loads false and prints the epilogue. -/
theorem printProgressBar_exit_witness :
    (∀ m ∈ [Shared.mk false 7 100, Shared.mk false 7 100, Shared.mk false 7 100],
        m.stopFlag = false)
      ∧ printProgressBarRun 10 '#' '-'
          ([Shared.mk true 0 50]
            ++ [Shared.mk false 7 100, Shared.mk false 7 100, Shared.mk false 7 100])
          Renderer.init
        = { pc := .done,
            out := [[.control cursorHide, .control "\r", .text "[", .control green,
                .text "##########", .control colourReset, .text "", .text "] ",
                .control green, .text "100", .text "%"],
              [.control colourReset, .control cursorShow, .text "\n"]] }
      ∧ ((∀ m ∈ [Shared.mk true 0 50]
              ++ [Shared.mk false 7 100, Shared.mk false 7 100, Shared.mk false 7 100],
            (frameBar 10 '#' '-' m.percentage).isSome = true) →
          (printProgressBarRun 10 '#' '-'
              ([Shared.mk true 0 50]
                ++ [Shared.mk false 7 100, Shared.mk false 7 100, Shared.mk false 7 100])
              Renderer.init).pc ≠ .aborted
            ∧ (3 ≤ [Shared.mk false 7 100, Shared.mk false 7 100,
                  Shared.mk false 7 100].length →
                (printProgressBarRun 10 '#' '-'
                  ([Shared.mk true 0 50]
                    ++ [Shared.mk false 7 100, Shared.mk false 7 100, Shared.mk false 7 100])
                  Renderer.init).pc = .done)) :=
  ⟨by decide, by decide,
    (printProgressBar_exit 10 '#' '-' [Shared.mk true 0 50]
      [Shared.mk false 7 100, Shared.mk false 7 100, Shared.mk false 7 100] (by decide)).2.2.1⟩

/-- C7 as stated fails: the renderer does not emit the final sequence on every
exit.  With bar size -1 it is inside the loop body when `stopFlag` becomes
false: the fill segment is empty, the space segment would have length -1, the
second `std::string` throws, and the thread ends without the epilogue.  With bar
size 30 and 4294967197 loaded from `percentage` the filled width is -29 and the
first `std::string` throws.  In both runs no later step prints anything. -/
theorem printProgressBar_exit_aborted :
    (printProgressBarRun (-1) '#' '-'
          ([Shared.mk true 0 0] ++ [Shared.mk false 0 0, Shared.mk false 0 0, Shared.mk false 0 0])
          Renderer.init
        = { pc := .aborted,
            out := [[.control cursorHide, .control "\r", .text "[", .control green, .text "",
                .control colourReset]] }
      ∧ epilogue ∉ (printProgressBarRun (-1) '#' '-'
          ([Shared.mk true 0 0] ++ [Shared.mk false 0 0, Shared.mk false 0 0, Shared.mk false 0 0])
          Renderer.init).out
      ∧ ∀ m : Shared,
          printProgressBarStep (-1) '#' '-' m
              { pc := .aborted,
                out := [[.control cursorHide, .control "\r", .text "[", .control green,
                    .text "", .control colourReset]] }
            = { pc := .aborted,
                out := [[.control cursorHide, .control "\r", .text "[", .control green,
                    .text "", .control colourReset]] })
      ∧ (printProgressBarRun 30 '#' '-'
          ([Shared.mk true 0 4294967197]
            ++ [Shared.mk false 0 4294967197, Shared.mk false 0 4294967197,
              Shared.mk false 0 4294967197])
          Renderer.init
        = { pc := .aborted,
            out := [[.control cursorHide, .control "\r", .text "[", .control green]] }
      ∧ epilogue ∉ (printProgressBarRun 30 '#' '-'
          ([Shared.mk true 0 4294967197]
            ++ [Shared.mk false 0 4294967197, Shared.mk false 0 4294967197,
              Shared.mk false 0 4294967197])
          Renderer.init).out) := by
  refine ⟨⟨by decide, by decide, fun m => step_aborted _ _ _ _ _ rfl⟩, by decide, by decide⟩

/-! ## `increment` -/

theorem incrementStep_returned (flag : Bool) (c : CounterTask) (h : c.returned = true) :
    incrementStep flag c = c := by
  simp [incrementStep, h]

theorem foldl_incrementStep_returned :
    ∀ (reads : List Bool) (c : CounterTask), c.returned = true →
      reads.foldl (fun c flag => incrementStep flag c) c = c := by
  intro reads
  induction reads with
  | nil => intro c _; rfl
  | cons b bs ih =>
    intro c h
    rw [List.foldl_cons, incrementStep_returned b c h]
    exact ih c h

theorem foldl_incrementStep_number :
    ∀ (reads : List Bool) (c : CounterTask), c.returned = false →
      c.number < 18446744073709551616 →
      (reads.foldl (fun c flag => incrementStep flag c) c).number
          = (c.number + (reads.takeWhile (fun b => b)).length) % 18446744073709551616
        ∧ ((reads.foldl (fun c flag => incrementStep flag c) c).returned = true
            ↔ false ∈ reads) := by
  intro reads
  induction reads with
  | nil =>
    intro c h hlt
    refine ⟨?_, ?_⟩
    · simp only [List.foldl_nil, List.takeWhile_nil, List.length_nil]
      omega
    · simp [h]
  | cons b bs ih =>
    intro c h hlt
    cases b with
    | false =>
      have hstep : incrementStep false c = { c with returned := true } := by
        simp [incrementStep, h]
      rw [List.foldl_cons, hstep, foldl_incrementStep_returned _ _ rfl]
      refine ⟨?_, by simp⟩
      simp only [List.takeWhile_cons, Bool.false_eq_true, if_false, List.length_nil]
      omega
    | true =>
      have hstep : incrementStep true c
          = { c with number := (c.number + 1) % 18446744073709551616 } := by
        simp [incrementStep, h]
      rw [List.foldl_cons, hstep]
      obtain ⟨ih1, ih2⟩ := ih { c with number := (c.number + 1) % 18446744073709551616 } h
        (Nat.mod_lt _ (by decide))
      refine ⟨?_, ?_⟩
      · rw [ih1]
        simp only [List.takeWhile_cons, if_true, List.length_cons]
        omega
      · rw [ih2]
        simp

/-- C9: for every sequence `reads` of values returned by the loads of `stopFlag`
in `increment`, and one more load returning `flag`: the counter, starting at 0,
holds the number of true reads before the first false read, modulo `2^64`;
`increment` has returned exactly when some read was false; the further load adds
exactly 1 (modulo `2^64`) when no read so far was false and it returns true, and
leaves the counter unchanged otherwise; so the counter never decreases, except
for the wrap from `2^64 - 1` to 0. -/
theorem increment_counts_true_reads (reads : List Bool) (flag : Bool) :
    CounterTask.init.number = 0
      ∧ (increment reads).number
          = (reads.takeWhile (fun b => b)).length % 18446744073709551616
      ∧ ((increment reads).returned = true ↔ false ∈ reads)
      ∧ (increment (reads ++ [flag])).number
          = (if (increment reads).returned = false ∧ flag = true
              then ((increment reads).number + 1) % 18446744073709551616
              else (increment reads).number)
      ∧ ((increment reads).number ≤ (increment (reads ++ [flag])).number
          ∨ ((increment reads).number = 18446744073709551615
              ∧ (increment (reads ++ [flag])).number = 0)) := by
  obtain ⟨h1, h2⟩ := foldl_incrementStep_number reads CounterTask.init rfl (by decide)
  have hnum : (increment reads).number
      = (reads.takeWhile (fun b => b)).length % 18446744073709551616 := by
    rw [show (increment reads).number = _ from h1]
    simp [CounterTask.init]
  have hlt : (increment reads).number < 18446744073709551616 := by
    rw [hnum]
    exact Nat.mod_lt _ (by decide)
  have hstep : increment (reads ++ [flag]) = incrementStep flag (increment reads) := by
    unfold increment
    rw [List.foldl_concat]
  have h3 : (increment (reads ++ [flag])).number
      = (if (increment reads).returned = false ∧ flag = true
          then ((increment reads).number + 1) % 18446744073709551616
          else (increment reads).number) := by
    rw [hstep]
    unfold incrementStep
    cases hr : (increment reads).returned <;> cases flag <;> simp
  refine ⟨rfl, hnum, h2, h3, ?_⟩
  rw [h3]
  split
  · omega
  · exact Or.inl (Nat.le_refl _)

end BarraDeCarga
